import Mathlib

/-!
# Verification of the fgp-workflow execution engine

A shallow embedding of the `fgp-workflow` Rust crate: the `Context` variable
store (`src/context.rs`), the template resolver, the workflow executor
(`src/executor.rs`), and the YAML-layer validator (`src/yaml.rs`).

Modelling conventions:
* `serde_json::Value` is embedded as the inductive `Fgp.Json`; numbers are
  modelled as integers (no claim exercises float behaviour).
* Rust `HashMap` / `serde_json::Map` are embedded as association lists whose
  observable behaviour is key lookup; `insert` replaces an existing binding.
* The Handlebars template engine and `serde_json::from_str`, which are
  external crates not part of this repository, are modelled from the spec
  (see the doc comments on `parseSegs`, `renderSegments` and `tryParseJson`).
* The external daemon call collaborator is modelled as an oracle
  `Nat → Response` giving the response to the n-th call, per the spec's
  collaborator contract; `execute` also returns the number of calls made.
* Wall-clock timing fields (`duration_ms`, `total_ms`) are not modelled.
-/

namespace Fgp

/-- Embedding of `serde_json::Value` (numbers restricted to integers). -/
inductive Json where
  | null : Json
  | bool (b : Bool) : Json
  | num (n : Int) : Json
  | str (s : String) : Json
  | arr (elems : List Json) : Json
  | obj (fields : List (String × Json)) : Json
deriving Repr, Inhabited

/-- First-match lookup in an association list (the observable behaviour of
`serde_json::Map::get` / `HashMap::get`). -/
def alookup : List (String × Json) → String → Option Json
  | [], _ => none
  | p :: rest, k => if p.1 = k then some p.2 else alookup rest k

/-- Insert-or-replace in an association list (the observable behaviour of
`serde_json::Map::insert` / `HashMap::insert`: a later insert overrides an
earlier binding for the same key). -/
def ainsert (fields : List (String × Json)) (k : String) (v : Json) :
    List (String × Json) :=
  if fields.any (fun p => p.1 = k) then
    fields.map (fun p => if p.1 = k then (k, v) else p)
  else
    fields ++ [(k, v)]

/-- Embedding of `Context` (src/context.rs): named variables plus the ordered
history of step results.  The `handlebars` field carries no observable state
and is omitted.  The source field `variables` is named `vars` here because
`variables` is reserved in Lean. -/
structure Context where
  vars : List (String × Json)
  results : List Json
deriving Repr, Inhabited

namespace Context

/-- `Context::new` — create a new empty context. -/
def new : Context := ⟨[], []⟩

/-- `Context::set` — set a variable (insert-or-overwrite). -/
def set (c : Context) (name : String) (value : Json) : Context :=
  { c with vars := ainsert c.vars name value }

/-- `Context::get` — get a variable. -/
def get (c : Context) (name : String) : Option Json :=
  alookup c.vars name

/-- `Context::push_result` — push a result onto the results stack. -/
def push_result (c : Context) (value : Json) : Context :=
  { c with results := c.results ++ [value] }

/-- `Context::prev` — the previous result (`self.results.last()`). -/
def prev (c : Context) : Option Json :=
  c.results.getLast?

end Context

/-- Does `pat` occur at the start of `l`? (substring helper). -/
def charStarts : List Char → List Char → Bool
  | [], _ => true
  | _ :: _, [] => false
  | a :: as, b :: bs => a = b && charStarts as bs

/-- Does `pat` occur anywhere in `l`? (substring helper). -/
def charSub : List Char → List Char → Bool
  | pat, [] => pat.isEmpty
  | pat, c :: rest => charStarts pat (c :: rest) || charSub pat rest

/-- Embedding of Rust `str::contains` with a string pattern. -/
def strContains (s pat : String) : Bool :=
  charSub pat.toList s.toList

/-- The character `{` (written via its code point to keep braces out of
string literals). -/
def lbrace : Char := Char.ofNat 123

/-- The character `}`. -/
def rbrace : Char := Char.ofNat 125

/-- The two-character string of two open braces (the template-markup opener
checked by `Context::resolve`). -/
def obrk : String := String.mk [lbrace, lbrace]

/-- The two-character string of two close braces. -/
def cbrk : String := String.mk [rbrace, rbrace]

/-- A parsed template segment: literal characters, or a dotted-path variable
expression from double-brace markup. -/
inductive Seg where
  | lit (chars : List Char) : Seg
  | expr (path : List String) : Seg
deriving Repr, DecidableEq

/-- Scan up to the first two-close-brace delimiter, returning the characters
before it and the remainder after it. -/
def splitAtClose : List Char → Option (List Char × List Char)
  | [] => none
  | [_] => none
  | c :: d :: rest =>
    if c = rbrace ∧ d = rbrace then some ([], rest)
    else
      match splitAtClose (d :: rest) with
      | some (inner, rem) => some (c :: inner, rem)
      | none => none

/-- Drop surrounding whitespace from a character list. -/
def trimChars (cs : List Char) : List Char :=
  ((cs.dropWhile Char.isWhitespace).reverse.dropWhile Char.isWhitespace).reverse

/-- Split a character list on dots into path elements. -/
def splitOnDot : List Char → List (List Char)
  | [] => [[]]
  | c :: rest =>
    if c = '.' then [] :: splitOnDot rest
    else
      match splitOnDot rest with
      | seg :: segs => (c :: seg) :: segs
      | [] => [[c]]

/-- Turn the raw characters between the braces into a dotted path:
trim surrounding whitespace, split on dots. -/
def parsePath (inner : List Char) : List String :=
  (splitOnDot (trimChars inner)).map String.mk

/-- Prepend a literal character to a segment list, merging with a leading
literal segment. -/
def consLit (c : Char) : List Seg → List Seg
  | .lit cs :: rest => .lit (c :: cs) :: rest
  | segs => .lit [c] :: segs

/-- Modelled from the spec: the Handlebars template parser (the `handlebars`
crate is external to this repository).  A template is literal text with
embedded double-brace-delimited dotted-path expressions; an unterminated
opener is malformed syntax and fails.  Fuel-indexed for structural
recursion; `parseSegs` supplies sufficient fuel. -/
def parseSegsGo : Nat → List Char → Option (List Seg)
  | _, [] => some []
  | 0, _ :: _ => none
  | fuel + 1, c :: cs =>
    if c = lbrace ∧ cs.head? = some lbrace then
      match splitAtClose cs.tail with
      | none => none
      | some (inner, rem) =>
        match parseSegsGo fuel rem with
        | none => none
        | some segs => some (Seg.expr (parsePath inner) :: segs)
    else
      match parseSegsGo fuel cs with
      | none => none
      | some segs => some (consLit c segs)

/-- Parse a template string into segments (see `parseSegsGo`). -/
def parseSegs (s : String) : Option (List Seg) :=
  parseSegsGo (s.toList.length + 1) s.toList

/-- Numeric value of a digit run. -/
def digitsVal (cs : List Char) : Nat :=
  cs.foldl (fun a c => a * 10 + (c.toNat - 48)) 0

/-- Parse a nonempty all-digit string as a natural number (the behaviour of
`String::parse::<usize>` on simple indices). -/
def strToNat? (s : String) : Option Nat :=
  if !s.toList.isEmpty && s.toList.all Char.isDigit then some (digitsVal s.toList)
  else none

/-- The expansion scope built by `Context::render_template` (src/context.rs
lines 100-111): the variables, then `$prev`/`prev` (when a previous result
exists), then `$results`/`results`, later inserts overriding earlier
bindings. -/
def buildScope (c : Context) : List (String × Json) :=
  let data := c.vars
  let data :=
    match c.prev with
    | some p => ainsert (ainsert data "$prev" p) "prev" p
    | none => data
  let data := ainsert data "$results" (.arr c.results)
  ainsert data "results" (.arr c.results)

/-- Modelled from the spec: dotted-path lookup into a structured value
(Handlebars path navigation, external to this repository) — record fields by
name, list elements by numeric index. -/
def jsonPath : Json → List String → Option Json
  | v, [] => some v
  | .obj fields, k :: rest =>
    match alookup fields k with
    | some v => jsonPath v rest
    | none => none
  | .arr xs, k :: rest =>
    match strToNat? k with
    | some i =>
      match xs.get? i with
      | some v => jsonPath v rest
      | none => none
    | none => none
  | _, _ :: _ => none

/-- Look a dotted path up in the expansion scope: the first path element
names a scope entry, the rest navigate inside it. -/
def lookupPath (scope : List (String × Json)) : List String → Option Json
  | [] => none
  | k :: rest =>
    match alookup scope k with
    | some v => jsonPath v rest
    | none => none

mutual

/-- Modelled from the spec: serialization of a structured value back to JSON
text (used when a composite value is interpolated into a template; no string
escaping, which no claim exercises). -/
def jsonSerialize : Json → String
  | .null => "null"
  | .bool b => if b then "true" else "false"
  | .num n => toString n
  | .str s => "\"" ++ s ++ "\""
  | .arr xs => "[" ++ serializeElems xs ++ "]"
  | .obj fields => "\x7b" ++ serializeFields fields ++ "\x7d"

/-- Comma-separated serialization of list elements. -/
def serializeElems : List Json → String
  | [] => ""
  | [x] => jsonSerialize x
  | x :: y :: rest => jsonSerialize x ++ "," ++ serializeElems (y :: rest)

/-- Comma-separated serialization of record fields. -/
def serializeFields : List (String × Json) → String
  | [] => ""
  | [(k, v)] => "\"" ++ k ++ "\":" ++ jsonSerialize v
  | (k, v) :: p :: rest =>
    "\"" ++ k ++ "\":" ++ jsonSerialize v ++ "," ++ serializeFields (p :: rest)

end

/-- Modelled from the spec: how a value found in the scope is written into
the rendered text (Handlebars value rendering): scalars print bare (null as
empty text), composites serialize as JSON. -/
def jsonDisplay : Json → String
  | .null => ""
  | .bool b => if b then "true" else "false"
  | .num n => toString n
  | .str s => s
  | v => jsonSerialize v

/-- Render one parsed segment against the scope.  A path missing from the
scope renders as the empty string (non-strict mode). -/
def renderSeg (scope : List (String × Json)) : Seg → String
  | .lit cs => String.mk cs
  | .expr path =>
    match lookupPath scope path with
    | some v => jsonDisplay v
    | none => ""

/-- Render all parsed segments and concatenate. -/
def renderSegments (scope : List (String × Json)) (segs : List Seg) : String :=
  String.join (segs.map (renderSeg scope))

/-- Is `cs` a valid JSON integer-digit run (no leading zero unless "0")? -/
def goodDigits (cs : List Char) : Bool :=
  !cs.isEmpty && cs.all Char.isDigit && (cs.length = 1 || cs.head? ≠ some '0')

/-- Modelled from the spec: `serde_json::from_str` applied to rendered text
(the `serde_json` parser is external to this repository) — restricted to the
scalar grammar the spec discusses: `null`, `true`, `false`, and integers;
any other text is not valid JSON here and stays a raw string. -/
def tryParseJson (s : String) : Option Json :=
  if s = "true" then some (.bool true)
  else if s = "false" then some (.bool false)
  else if s = "null" then some .null
  else
    match s.toList with
    | '-' :: cs => if goodDigits cs then some (.num (-(digitsVal cs : Int))) else none
    | cs => if goodDigits cs then some (.num (digitsVal cs)) else none

/-- The post-processing step of `Context::render_template` (src/context.rs
lines 116-120): try to parse the rendered text as JSON, keeping the raw
string otherwise. -/
def finishRender (c : Context) (segs : List Seg) : Json :=
  match tryParseJson (renderSegments (buildScope c) segs) with
  | some v => v
  | none => .str (renderSegments (buildScope c) segs)

/-- `Context::render_template` (src/context.rs lines 96-121): build the
expansion scope, render the template (failing on malformed syntax), then
post-process the rendered text with `finishRender`. -/
def render_template (c : Context) (template : String) : Option Json :=
  match parseSegs template with
  | none => none
  | some segs => some (finishRender c segs)

/-- `Context::as_json` (src/context.rs lines 124-138): all variables, then
`$prev` when a previous result exists, then `$results`. -/
def Context.as_json (c : Context) : Json :=
  let data := c.vars
  let data :=
    match c.prev with
    | some p => ainsert data "$prev" p
    | none => data
  .obj (ainsert data "$results" (.arr c.results))

mutual

/-- `Context::resolve` (src/context.rs lines 60-93): expand templates.
A record whose `__template__` key holds a string is replaced by the rendered
template; other records and lists are traversed recursively; a string
containing both double-brace markers is rendered; scalars pass through. -/
def Context.resolve (c : Context) : Json → Option Json
  | .obj fields =>
    match alookup fields "__template__" with
    | some (.str t) => render_template c t
    | _ =>
      match resolveFields c fields with
      | some out => some (.obj out)
      | none => none
  | .arr xs =>
    match resolveElems c xs with
    | some out => some (.arr out)
    | none => none
  | .str s =>
    if strContains s obrk && strContains s cbrk then render_template c s
    else some (.str s)
  | .null => some .null
  | .bool b => some (.bool b)
  | .num n => some (.num n)

/-- Recursive resolution of record fields, keeping keys and order. -/
def resolveFields (c : Context) : List (String × Json) → Option (List (String × Json))
  | [] => some []
  | (k, v) :: rest =>
    match Context.resolve c v, resolveFields c rest with
    | some v, some rest => some ((k, v) :: rest)
    | _, _ => none

/-- Recursive resolution of list elements. -/
def resolveElems (c : Context) : List Json → Option (List Json)
  | [] => some []
  | v :: rest =>
    match Context.resolve c v, resolveElems c rest with
    | some v, some rest => some (v :: rest)
    | _, _ => none

end

/-- Embedding of `Step` (src/step.rs): service, method, parameters, optional
output binding, optional description. -/
structure Step where
  service : String
  method : String
  params : List (String × Json)
  output : Option String
  description : Option String
deriving Repr, Inhabited

/-- Embedding of `Workflow` (src/workflow.rs): name, optional description,
ordered steps. -/
structure Workflow where
  name : String
  description : Option String
  steps : List Step
deriving Repr, Inhabited

/-- The remote error object of the collaborator contract
(`error: { message } option`). -/
structure ErrObj where
  message : String
deriving Repr, Inhabited

/-- Modelled from the spec: the call collaborator contract
`Response = { ok, result option, error option }` (the `fgp_daemon` client is
external to this repository). -/
structure Response where
  ok : Bool
  result : Option Json
  error : Option ErrObj
deriving Repr, Inhabited

/-- Embedding of `StepResult` (src/executor.rs): step index, the step, its
result (timing omitted, see the header). -/
structure StepResult where
  index : Nat
  step : Step
  result : Json
deriving Repr, Inhabited

/-- Embedding of `ExecutionResult` (src/executor.rs): final result, per-step
results, final context (timing omitted). -/
structure ExecutionResult where
  result : Json
  step_results : List StepResult
  context : Context
deriving Repr, Inhabited

/-- `resolve_params` (src/executor.rs lines 144-155): resolve each parameter
value against the context, collecting into an object. -/
def resolve_params (c : Context) (params : List (String × Json)) : Option Json :=
  match resolveFields c params with
  | some out => some (.obj out)
  | none => none

/-- The context update a successful step performs (src/executor.rs lines
109-115): push the result onto history, then bind it under the step's
output name when one is set. -/
def stepUpdate (c : Context) (step : Step) (result : Json) : Context :=
  let c := c.push_result result
  match step.output with
  | some name => c.set name result
  | none => c

/-- The error message built by `execute` when a response reports failure
(src/executor.rs lines 95-101). -/
def stepErrorMsg (index : Nat) (step : Step) (errMsg : String) : String :=
  "Step " ++ toString index ++ " (" ++ step.service ++ "." ++ step.method ++
    ") returned error: " ++ errMsg

/-- The step loop of `execute` (src/executor.rs lines 71-123), with the
collaborator as an oracle from call number to `Response`.  Returns the
outcome together with the number of collaborator calls made.  `index` is the
index of the next step (the oracle is consulted once per step, in order). -/
def executeFrom (oracle : Nat → Response) :
    List Step → Nat → Context → List StepResult →
    Except String (Context × List StepResult) × Nat
  | [], _, c, acc => (.ok (c, acc), 0)
  | step :: rest, index, c, acc =>
    match resolve_params c step.params with
    | none => (.error ("Failed to render template in step " ++ toString index), 0)
    | some _ =>
      if (oracle index).ok then
        ((executeFrom oracle rest (index + 1)
            (stepUpdate c step ((oracle index).result.getD .null))
            (acc ++ [{ index := index, step := step,
                       result := (oracle index).result.getD .null }])).1,
         (executeFrom oracle rest (index + 1)
            (stepUpdate c step ((oracle index).result.getD .null))
            (acc ++ [{ index := index, step := step,
                       result := (oracle index).result.getD .null }])).2 + 1)
      else
        (.error (stepErrorMsg index step
          (((oracle index).error.map ErrObj.message).getD "")), 1)

/-- `execute` (src/executor.rs lines 64-141): run the steps from a fresh
context; on success the final result is the last history entry, or null when
the history is empty.  The second component counts collaborator calls. -/
def execute (oracle : Nat → Response) (workflow : Workflow) :
    Except String ExecutionResult × Nat :=
  match executeFrom oracle workflow.steps 0 Context.new [] with
  | (.ok (c, step_results), n) =>
    (.ok { result := c.prev.getD .null, step_results := step_results,
           context := c }, n)
  | (.error e, n) => (.error e, n)

/-- The per-step validation loop of `validate` (src/yaml.rs lines 68-75). -/
def validateSteps (i : Nat) : List Step → Except String Unit
  | [] => .ok ()
  | step :: rest =>
    if step.service = "" then .error ("Step " ++ toString i ++ " has empty service name")
    else if step.method = "" then .error ("Step " ++ toString i ++ " has empty method name")
    else validateSteps (i + 1) rest

/-- `validate` (src/yaml.rs lines 59-78): reject an empty workflow name, an
empty step list, and any step with an empty service or method, in that
order.  `parse_yaml` runs this on every parsed workflow before execution. -/
def validate (workflow : Workflow) : Except String Unit :=
  if workflow.name = "" then .error "Workflow name cannot be empty"
  else if workflow.steps.isEmpty then .error "Workflow must have at least one step"
  else validateSteps 0 workflow.steps

/-- Embedding of `serde_json::Value::get` with a string key: field lookup on
a record value, absent on any other value. -/
def jsonGet (v : Json) (k : String) : Option Json :=
  match v with
  | .obj fields => alookup fields k
  | _ => none

/-! ## Fully-resolved values (no marker, no markup) -/

mutual

/-- A value with no explicit-template marker (no record key `__template__`)
and no double-brace markup in any string leaf. -/
def noMarkup : Json → Bool
  | .null => true
  | .bool _ => true
  | .num _ => true
  | .str s => !(strContains s obrk && strContains s cbrk)
  | .arr xs => noMarkupElems xs
  | .obj fields => noMarkupFields fields

/-- `noMarkup` over list elements. -/
def noMarkupElems : List Json → Bool
  | [] => true
  | v :: rest => noMarkup v && noMarkupElems rest

/-- `noMarkup` over record fields (also requires the key to differ from
`__template__`). -/
def noMarkupFields : List (String × Json) → Bool
  | [] => true
  | (k, v) :: rest =>
    if k = "__template__" then false else noMarkup v && noMarkupFields rest

end

/-! ## Well-formed templates always render -/

mutual

/-- Every template a resolution of this value will render is syntactically
well-formed (its markup parses), so resolution cannot fail. -/
def wfJson : Json → Bool
  | .null => true
  | .bool _ => true
  | .num _ => true
  | .str s =>
    if strContains s obrk && strContains s cbrk then (parseSegs s).isSome else true
  | .arr xs => wfElems xs
  | .obj fields =>
    match alookup fields "__template__" with
    | some (.str t) => (parseSegs t).isSome
    | _ => wfFields fields

/-- `wfJson` over list elements. -/
def wfElems : List Json → Bool
  | [] => true
  | v :: rest => wfJson v && wfElems rest

/-- `wfJson` over record fields. -/
def wfFields : List (String × Json) → Bool
  | [] => true
  | (_, v) :: rest => wfJson v && wfFields rest

end

/-- All parameter values of a step are well-formed in the sense of `wfJson`. -/
def wfParams (params : List (String × Json)) : Bool :=
  params.all (fun p => wfJson p.2)

/-! ## Concrete fixtures used by witnesses and counterexamples -/

/-- A first step binding its result to `a`. -/
def stepA : Step :=
  { service := "svc", method := "m1", params := [("limit", .num 5)],
    output := some "a", description := none }

/-- A second step whose parameter is an explicit template referencing `a`. -/
def stepB : Step :=
  { service := "svc", method := "m2",
    params := [("x", .obj [("__template__", .str ("\x7b\x7ba\x7d\x7d-suffix"))])],
    output := none, description := none }

/-- A two-step workflow. -/
def wTwo : Workflow := { name := "t", description := none, steps := [stepA, stepB] }

/-- A single plain step. -/
def plainStep : Step :=
  { service := "svc", method := "m1", params := [], output := none,
    description := none }

/-- A one-step workflow. -/
def wOne : Workflow := { name := "t", description := none, steps := [plainStep] }

/-- A collaborator that always fails with message "boom". -/
def failOracle : Nat → Response :=
  fun _ => { ok := false, result := none, error := some { message := "boom" } }

/-- A collaborator that always succeeds with result 10. -/
def okOracle : Nat → Response :=
  fun _ => { ok := true, result := some (.num 10), error := none }

/-- A collaborator that succeeds with an absent result payload. -/
def noneOracle : Nat → Response :=
  fun _ => { ok := true, result := none, error := none }

/-- A context whose history holds one result. -/
def ctxPrev : Context := Context.new.push_result (.num 1)

/-- A context with variables x = 5 and y = 7. -/
def ctx57 : Context := (Context.new.set "x" (.num 5)).set "y" (.num 7)

/-- A context with one result in history and one named variable. -/
def ctxPrevVar : Context := (Context.new.push_result (.num 1)).set "q" (.num 3)

/-! ## Association-list lemmas -/

theorem alookup_append (l m : List (String × Json)) (k : String) :
    alookup (l ++ m) k =
      match alookup l k with
      | some r => some r
      | none => alookup m k := by
  induction l with
  | nil => simp [alookup]
  | cons p rest ih =>
    by_cases hp : p.1 = k
    · simp [alookup, hp]
    · simp [alookup, hp, ih]

theorem alookup_none_of_any_eq_false (l : List (String × Json)) (k : String)
    (h : l.any (fun p => p.1 = k) = false) : alookup l k = none := by
  induction l with
  | nil => rfl
  | cons p rest ih =>
    simp only [List.any_cons, Bool.or_eq_false_iff, decide_eq_false_iff_not] at h
    simp [alookup, h.1, ih h.2]

theorem alookup_map_replace_self (l : List (String × Json)) (k : String) (v : Json) :
    alookup (l.map (fun p => if p.1 = k then (k, v) else p)) k =
      if l.any (fun p => p.1 = k) then some v else none := by
  induction l with
  | nil => simp [alookup]
  | cons p rest ih =>
    by_cases hp : p.1 = k
    · simp [alookup, hp]
    · have hd : decide (p.1 = k) = false := by simp [hp]
      have hstep : alookup ((p :: rest).map (fun q => if q.1 = k then (k, v) else q)) k
          = alookup (rest.map (fun q => if q.1 = k then (k, v) else q)) k := by
        simp [alookup, hp]
      rw [hstep, ih, List.any_cons, hd, Bool.false_or]

theorem alookup_map_replace_other (l : List (String × Json)) (k k' : String) (v : Json)
    (h : k' ≠ k) :
    alookup (l.map (fun p => if p.1 = k then (k, v) else p)) k' = alookup l k' := by
  induction l with
  | nil => simp
  | cons p rest ih =>
    by_cases hp : p.1 = k
    · have : k ≠ k' := fun hh => h hh.symm
      simp [alookup, hp, this, ih]
    · simp [alookup, hp, ih]

theorem alookup_ainsert_self (l : List (String × Json)) (k : String) (v : Json) :
    alookup (ainsert l k v) k = some v := by
  unfold ainsert
  by_cases hany : l.any (fun p => p.1 = k)
  · simp [hany, alookup_map_replace_self]
  · have hf : l.any (fun p => p.1 = k) = false := by
      simp only [Bool.not_eq_true] at hany
      exact hany
    rw [if_neg (by simp [hf]), alookup_append,
      alookup_none_of_any_eq_false l k hf]
    simp [alookup]

theorem alookup_ainsert_other (l : List (String × Json)) (k k' : String) (v : Json)
    (h : k' ≠ k) : alookup (ainsert l k v) k' = alookup l k' := by
  unfold ainsert
  by_cases hany : l.any (fun p => p.1 = k)
  · simp [hany, alookup_map_replace_other l k k' v h]
  · have hf : l.any (fun p => p.1 = k) = false := by
      simp only [Bool.not_eq_true] at hany
      exact hany
    rw [if_neg (by simp [hf]), alookup_append]
    have hkk : ¬ k = k' := fun hh => h hh.symm
    have hsingle : alookup [(k, v)] k' = none := by
      simp [alookup, hkk]
    rw [hsingle]
    cases alookup l k' <;> simp

/-! ## Substring lemmas -/

theorem charSub_nil (l : List Char) : charSub [] l = true := by
  cases l <;> simp [charSub, charStarts]

theorem charStarts_append_self (pat suf : List Char) :
    charStarts pat (pat ++ suf) = true := by
  induction pat with
  | nil => simp [charStarts]
  | cons a as ih => simp [charStarts, ih]

theorem charSub_append_self (pat suf : List Char) : charSub pat (pat ++ suf) = true := by
  cases pat with
  | nil => exact charSub_nil _
  | cons a as =>
    rw [List.cons_append, charSub]
    have := charStarts_append_self (a :: as) suf
    rw [List.cons_append] at this
    simp [this]

theorem charSub_cons (pat l : List Char) (c : Char) (h : charSub pat l = true) :
    charSub pat (c :: l) = true := by
  rw [charSub, h]
  simp

theorem charSub_append_left (pat l : List Char) (h : charSub pat l = true) :
    ∀ pre, charSub pat (pre ++ l) = true
  | [] => h
  | c :: cs => by
    rw [List.cons_append]
    exact charSub_cons _ _ c (charSub_append_left pat l h cs)

theorem strContains_middle (pre mid suf : String) :
    strContains (pre ++ mid ++ suf) mid = true := by
  have h1 : charSub mid.toList (mid.toList ++ suf.toList) = true :=
    charSub_append_self _ _
  have h2 := charSub_append_left _ _ h1 pre.toList
  simp only [strContains, String.toList, String.data_append]
  simpa [List.append_assoc] using h2

theorem strContains_self_append (mid suf : String) :
    strContains (mid ++ suf) mid = true := by
  have := strContains_middle "" mid suf
  simpa using this

/-- Every component named by claim C1 occurs in the step-failure message. -/
theorem stepErrorMsg_contains (i : Nat) (step : Step) (e : String) :
    strContains (stepErrorMsg i step e) (toString i) = true ∧
    strContains (stepErrorMsg i step e) step.service = true ∧
    strContains (stepErrorMsg i step e) step.method = true ∧
    strContains (stepErrorMsg i step e) e = true := by
  unfold stepErrorMsg
  refine ⟨?_, ?_, ?_, ?_⟩
  · have := strContains_middle "Step " (toString i)
      (" (" ++ step.service ++ "." ++ step.method ++ ") returned error: " ++ e)
    rw [show "Step " ++ toString i ++
        (" (" ++ step.service ++ "." ++ step.method ++ ") returned error: " ++ e) =
        "Step " ++ toString i ++ " (" ++ step.service ++ "." ++ step.method ++
          ") returned error: " ++ e from by
      simp [String.ext_iff, String.data_append, List.append_assoc]] at this
    exact this
  · have := strContains_middle ("Step " ++ toString i ++ " (") step.service
      ("." ++ step.method ++ ") returned error: " ++ e)
    rw [show ("Step " ++ toString i ++ " (") ++ step.service ++
        ("." ++ step.method ++ ") returned error: " ++ e) =
        "Step " ++ toString i ++ " (" ++ step.service ++ "." ++ step.method ++
          ") returned error: " ++ e from by
      simp [String.ext_iff, String.data_append, List.append_assoc]] at this
    exact this
  · have := strContains_middle ("Step " ++ toString i ++ " (" ++ step.service ++ ".")
      step.method (") returned error: " ++ e)
    rw [show ("Step " ++ toString i ++ " (" ++ step.service ++ ".") ++ step.method ++
        (") returned error: " ++ e) =
        "Step " ++ toString i ++ " (" ++ step.service ++ "." ++ step.method ++
          ") returned error: " ++ e from by
      simp [String.ext_iff, String.data_append, List.append_assoc]] at this
    exact this
  · have := strContains_middle
      ("Step " ++ toString i ++ " (" ++ step.service ++ "." ++ step.method ++
        ") returned error: ") e ""
    rw [show ("Step " ++ toString i ++ " (" ++ step.service ++ "." ++ step.method ++
        ") returned error: ") ++ e ++ "" =
        "Step " ++ toString i ++ " (" ++ step.service ++ "." ++ step.method ++
          ") returned error: " ++ e from by
      simp [String.ext_iff, String.data_append, List.append_assoc]] at this
    exact this

theorem alookup_marker_of_noMarkupFields :
    ∀ fields, noMarkupFields fields = true → alookup fields "__template__" = none := by
  intro fields h
  induction fields with
  | nil => rfl
  | cons p rest ih =>
    rcases p with ⟨k, v⟩
    rw [noMarkupFields] at h
    by_cases hk : k = "__template__"
    · simp [hk] at h
    · simp only [if_neg hk, Bool.and_eq_true] at h
      simp [alookup, hk, ih h.2]

mutual

theorem resolve_noMarkup (c : Context) :
    ∀ v, noMarkup v = true → Context.resolve c v = some v
  | .null, _ => by simp [Context.resolve]
  | .bool b, _ => by simp [Context.resolve]
  | .num n, _ => by simp [Context.resolve]
  | .str s, h => by
    rw [noMarkup] at h
    have hc : (strContains s obrk && strContains s cbrk) = false := by
      rwa [Bool.not_eq_true'] at h
    rw [Context.resolve, if_neg (by simp [hc])]
  | .arr xs, h => by
    rw [noMarkup] at h
    rw [Context.resolve, resolveElems_noMarkup c xs h]
  | .obj fields, h => by
    rw [noMarkup] at h
    rw [Context.resolve, alookup_marker_of_noMarkupFields fields h,
      resolveFields_noMarkup c fields h]

theorem resolveElems_noMarkup (c : Context) :
    ∀ xs, noMarkupElems xs = true → resolveElems c xs = some xs
  | [], _ => by simp [resolveElems]
  | v :: rest, h => by
    rw [noMarkupElems, Bool.and_eq_true] at h
    rw [resolveElems, resolve_noMarkup c v h.1, resolveElems_noMarkup c rest h.2]

theorem resolveFields_noMarkup (c : Context) :
    ∀ fields, noMarkupFields fields = true → resolveFields c fields = some fields
  | [], _ => by simp [resolveFields]
  | (k, v) :: rest, h => by
    rw [noMarkupFields] at h
    by_cases hk : k = "__template__"
    · simp [hk] at h
    · rw [if_neg hk, Bool.and_eq_true] at h
      rw [resolveFields, resolve_noMarkup c v h.1, resolveFields_noMarkup c rest h.2]

end

theorem render_template_isSome_of_parse (c : Context) (t : String)
    (h : (parseSegs t).isSome = true) : ∃ u, render_template c t = some u := by
  rcases Option.isSome_iff_exists.mp h with ⟨segs, hsegs⟩
  exact ⟨finishRender c segs, by rw [render_template, hsegs]⟩

mutual

theorem resolve_wf_isSome (c : Context) :
    ∀ v, wfJson v = true → ∃ u, Context.resolve c v = some u
  | .null, _ => ⟨.null, by simp [Context.resolve]⟩
  | .bool b, _ => ⟨.bool b, by simp [Context.resolve]⟩
  | .num n, _ => ⟨.num n, by simp [Context.resolve]⟩
  | .str s, h => by
    rw [wfJson] at h
    by_cases hm : strContains s obrk && strContains s cbrk
    · rw [if_pos hm] at h
      rcases render_template_isSome_of_parse c s h with ⟨u, hu⟩
      exact ⟨u, by rw [Context.resolve, if_pos hm, hu]⟩
    · exact ⟨_, by rw [Context.resolve, if_neg hm]⟩
  | .arr xs, h => by
    rw [wfJson] at h
    rcases resolveElems_wf_isSome c xs h with ⟨out, hout⟩
    exact ⟨_, by rw [Context.resolve, hout]⟩
  | .obj fields, h => by
    rw [wfJson] at h
    rcases hm : alookup fields "__template__" with _ | v
    · rw [hm] at h
      rcases resolveFields_wf_isSome c fields h with ⟨out, hout⟩
      exact ⟨_, by rw [Context.resolve, hm, hout]⟩
    · cases v with
      | str t =>
        rw [hm] at h
        have h' : (parseSegs t).isSome = true := h
        rcases render_template_isSome_of_parse c t h' with ⟨u, hu⟩
        refine ⟨u, ?_⟩
        rw [Context.resolve, hm]
        exact hu
      | null =>
        have h' : wfFields fields = true := by rw [hm] at h; exact h
        rcases resolveFields_wf_isSome c fields h' with ⟨out, hout⟩
        refine ⟨.obj out, ?_⟩
        rw [Context.resolve, hm]
        show (match resolveFields c fields with
              | some out => some (Json.obj out)
              | none => none) = some (Json.obj out)
        rw [hout]
      | bool b =>
        have h' : wfFields fields = true := by rw [hm] at h; exact h
        rcases resolveFields_wf_isSome c fields h' with ⟨out, hout⟩
        refine ⟨.obj out, ?_⟩
        rw [Context.resolve, hm]
        show (match resolveFields c fields with
              | some out => some (Json.obj out)
              | none => none) = some (Json.obj out)
        rw [hout]
      | num n =>
        have h' : wfFields fields = true := by rw [hm] at h; exact h
        rcases resolveFields_wf_isSome c fields h' with ⟨out, hout⟩
        refine ⟨.obj out, ?_⟩
        rw [Context.resolve, hm]
        show (match resolveFields c fields with
              | some out => some (Json.obj out)
              | none => none) = some (Json.obj out)
        rw [hout]
      | arr ys =>
        have h' : wfFields fields = true := by rw [hm] at h; exact h
        rcases resolveFields_wf_isSome c fields h' with ⟨out, hout⟩
        refine ⟨.obj out, ?_⟩
        rw [Context.resolve, hm]
        show (match resolveFields c fields with
              | some out => some (Json.obj out)
              | none => none) = some (Json.obj out)
        rw [hout]
      | obj gs =>
        have h' : wfFields fields = true := by rw [hm] at h; exact h
        rcases resolveFields_wf_isSome c fields h' with ⟨out, hout⟩
        refine ⟨.obj out, ?_⟩
        rw [Context.resolve, hm]
        show (match resolveFields c fields with
              | some out => some (Json.obj out)
              | none => none) = some (Json.obj out)
        rw [hout]

theorem resolveElems_wf_isSome (c : Context) :
    ∀ xs, wfElems xs = true → ∃ out, resolveElems c xs = some out
  | [], _ => ⟨[], by simp [resolveElems]⟩
  | v :: rest, h => by
    rw [wfElems, Bool.and_eq_true] at h
    rcases resolve_wf_isSome c v h.1 with ⟨u, hu⟩
    rcases resolveElems_wf_isSome c rest h.2 with ⟨out, hout⟩
    exact ⟨u :: out, by rw [resolveElems, hu, hout]⟩

theorem resolveFields_wf_isSome (c : Context) :
    ∀ fields, wfFields fields = true → ∃ out, resolveFields c fields = some out
  | [], _ => ⟨[], by simp [resolveFields]⟩
  | (k, v) :: rest, h => by
    rw [wfFields, Bool.and_eq_true] at h
    rcases resolve_wf_isSome c v h.1 with ⟨u, hu⟩
    rcases resolveFields_wf_isSome c rest h.2 with ⟨out, hout⟩
    exact ⟨(k, u) :: out, by rw [resolveFields, hu, hout]⟩

end

theorem resolve_params_isSome_of_wf (c : Context) (params : List (String × Json))
    (h : wfParams params = true) : ∃ o, resolve_params c params = some o := by
  have hf : wfFields params = true := by
    rw [wfParams, List.all_eq_true] at h
    induction params with
    | nil => rfl
    | cons p rest ih =>
      rw [wfFields]
      rcases p with ⟨k, v⟩
      have h1 := h (k, v) (by simp)
      have h2 := ih (fun q hq => h q (by simp [hq]))
      simp [h1, h2]
  rcases resolveFields_wf_isSome c params hf with ⟨out, hout⟩
  exact ⟨_, by rw [resolve_params, hout]⟩

/-! ## Executor lemmas -/

theorem stepUpdate_results (c : Context) (step : Step) (r : Json) :
    (stepUpdate c step r).results = c.results ++ [r] := by
  rw [stepUpdate]
  cases step.output <;> simp [Context.push_result, Context.set]

theorem stepUpdate_prev (c : Context) (step : Step) (r : Json) :
    (stepUpdate c step r).prev = some r := by
  rw [Context.prev, stepUpdate_results]
  simp

theorem stepUpdate_vars (c : Context) (step : Step) (r : Json) :
    (stepUpdate c step r).vars =
      match step.output with
      | some n => ainsert c.vars n r
      | none => c.vars := by
  rw [stepUpdate]
  cases step.output <;> simp [Context.push_result, Context.set]

theorem getLast?_map {α β : Type} (f : α → β) (l : List α) :
    (l.map f).getLast? = (l.getLast?).map f := by
  induction l using List.reverseRecOn with
  | nil => rfl
  | append_singleton l a ih => simp

theorem executeFrom_fail (oracle : Nat → Response) :
    ∀ (steps : List Step) (i : Nat) (base : Nat) (c : Context)
      (acc : List StepResult) (hi : i < steps.length),
      (∀ s ∈ steps, wfParams s.params = true) →
      (∀ j, j < i → (oracle (base + j)).ok = true) →
      (oracle (base + i)).ok = false →
      executeFrom oracle steps base c acc =
        (.error (stepErrorMsg (base + i) (steps.get ⟨i, hi⟩)
          (((oracle (base + i)).error.map ErrObj.message).getD "")), i + 1) := by
  intro steps
  induction steps with
  | nil =>
    intro i base c acc hi
    exact absurd hi (by simp)
  | cons step rest ih =>
    intro i base c acc hi hwf hok hfail
    rcases resolve_params_isSome_of_wf c step.params (hwf step (by simp)) with ⟨o, ho⟩
    cases i with
    | zero =>
      simp only [Nat.add_zero] at hfail
      simp [executeFrom, ho, hfail]
    | succ j =>
      have hj : j < rest.length := by simpa using hi
      have hok0 : (oracle base).ok = true := by simpa using hok 0 (Nat.succ_pos j)
      have hokshift : ∀ k, k < j → (oracle (base + 1 + k)).ok = true := by
        intro k hk
        have hh := hok (k + 1) (by omega)
        have harith : base + (k + 1) = base + 1 + k := by omega
        rwa [harith] at hh
      have hfail' : (oracle (base + 1 + j)).ok = false := by
        have harith : base + (j + 1) = base + 1 + j := by omega
        rwa [harith] at hfail
      have ihapp := ih j (base + 1)
        (stepUpdate c step ((oracle base).result.getD .null))
        (acc ++ [{ index := base, step := step,
                   result := (oracle base).result.getD .null }]) hj
        (fun s hs => hwf s (List.mem_cons_of_mem _ hs)) hokshift hfail'
      simp only [executeFrom, ho, hok0, if_true, ihapp]
      have harith : base + 1 + j = base + (j + 1) := by omega
      simp [harith]

theorem executeFrom_ok (oracle : Nat → Response) :
    ∀ (steps : List Step) (base : Nat) (c : Context) (acc : List StepResult)
      (c' : Context) (acc' : List StepResult) (n : Nat),
      executeFrom oracle steps base c acc = (.ok (c', acc'), n) →
      ∃ new, acc' = acc ++ new ∧
        c'.results = c.results ++ new.map StepResult.result ∧
        new.length = steps.length := by
  intro steps
  induction steps with
  | nil =>
    intro base c acc c' acc' n h
    rw [executeFrom] at h
    injection h with h1 h2
    injection h1 with h1
    cases h1
    exact ⟨[], by simp, by simp, rfl⟩
  | cons step rest ih =>
    intro base c acc c' acc' n h
    rw [executeFrom] at h
    cases hrp : resolve_params c step.params with
    | none =>
      rw [hrp] at h
      injection h with h1 h2
      exact absurd h1 (by simp)
    | some o =>
      rw [hrp] at h
      by_cases hok : (oracle base).ok
      · rw [if_pos hok] at h
        injection h with h1 h2
        have hfull : executeFrom oracle rest (base + 1)
            (stepUpdate c step ((oracle base).result.getD .null))
            (acc ++ [{ index := base, step := step,
                       result := (oracle base).result.getD .null }]) =
            (.ok (c', acc'),
             (executeFrom oracle rest (base + 1)
               (stepUpdate c step ((oracle base).result.getD .null))
               (acc ++ [{ index := base, step := step,
                          result := (oracle base).result.getD .null }])).2) := by
          rw [← h1]
        obtain ⟨new, hacc, hres, hlen⟩ := ih (base + 1)
          (stepUpdate c step ((oracle base).result.getD .null))
          (acc ++ [{ index := base, step := step,
                     result := (oracle base).result.getD .null }]) c' acc' _ hfull
        refine ⟨{ index := base, step := step,
                  result := (oracle base).result.getD .null } :: new, ?_, ?_, ?_⟩
        · rw [hacc, List.append_assoc]
          rfl
        · rw [hres, stepUpdate_results]
          simp
        · simp [hlen]
      · rw [if_neg hok] at h
        injection h with h1 h2
        exact absurd h1 (by simp)

/-! ## Scope, validation and traversal lemmas -/

theorem buildScope_lookup_var (c : Context) (n : String)
    (h1 : n ≠ "$prev") (h2 : n ≠ "prev") (h3 : n ≠ "$results") (h4 : n ≠ "results") :
    alookup (buildScope c) n = alookup c.vars n := by
  rw [buildScope]
  cases hp : c.prev
  · simp only [alookup_ainsert_other _ _ _ _ h4, alookup_ainsert_other _ _ _ _ h3]
  · simp only [alookup_ainsert_other _ _ _ _ h4, alookup_ainsert_other _ _ _ _ h3,
      alookup_ainsert_other _ _ _ _ h2, alookup_ainsert_other _ _ _ _ h1]

theorem buildScope_lookup_prev (c : Context) (p : Json) (hp : c.prev = some p) :
    alookup (buildScope c) "$prev" = some p ∧
    alookup (buildScope c) "prev" = some p := by
  rw [buildScope, hp]
  constructor
  · rw [alookup_ainsert_other _ "results" "$prev" _ (by decide),
      alookup_ainsert_other _ "$results" "$prev" _ (by decide),
      alookup_ainsert_other _ "prev" "$prev" _ (by decide),
      alookup_ainsert_self]
  · rw [alookup_ainsert_other _ "results" "prev" _ (by decide),
      alookup_ainsert_other _ "$results" "prev" _ (by decide),
      alookup_ainsert_self]

theorem buildScope_lookup_results (c : Context) :
    alookup (buildScope c) "$results" = some (.arr c.results) ∧
    alookup (buildScope c) "results" = some (.arr c.results) := by
  rw [buildScope]
  cases hp : c.prev <;>
    exact ⟨by rw [alookup_ainsert_other _ _ _ _ (by decide), alookup_ainsert_self],
           by rw [alookup_ainsert_self]⟩

theorem validateSteps_ok_iff :
    ∀ (steps : List Step) (i : Nat),
      validateSteps i steps = .ok () ↔
        ∀ s ∈ steps, s.service ≠ "" ∧ s.method ≠ "" := by
  intro steps
  induction steps with
  | nil => intro i; simp [validateSteps]
  | cons step rest ih =>
    intro i
    by_cases hs : step.service = ""
    · simp [validateSteps, hs]
    · by_cases hm : step.method = ""
      · simp [validateSteps, hs, hm]
      · simp [validateSteps, hs, hm, ih (i + 1)]

theorem validateSteps_first_bad :
    ∀ (steps : List Step) (j i : Nat) (hj : j < steps.length),
      (∀ s ∈ steps.take j, s.service ≠ "" ∧ s.method ≠ "") →
      ((steps.get ⟨j, hj⟩).service = "" →
        validateSteps i steps =
          .error ("Step " ++ toString (i + j) ++ " has empty service name")) ∧
      ((steps.get ⟨j, hj⟩).service ≠ "" → (steps.get ⟨j, hj⟩).method = "" →
        validateSteps i steps =
          .error ("Step " ++ toString (i + j) ++ " has empty method name")) := by
  intro steps
  induction steps with
  | nil =>
    intro j i hj
    exact absurd hj (by simp)
  | cons step rest ih =>
    intro j i hj hgood
    cases j with
    | zero =>
      constructor
      · intro hs
        simp only [List.get] at hs
        simp [validateSteps, hs]
      · intro hs hm
        simp only [List.get] at hs hm
        simp [validateSteps, hs, hm]
    | succ j' =>
      have hhead : step.service ≠ "" ∧ step.method ≠ "" :=
        hgood step (by simp [List.take])
      have hj' : j' < rest.length := by simpa using hj
      have htail : ∀ s ∈ rest.take j', s.service ≠ "" ∧ s.method ≠ "" := by
        intro s hs
        exact hgood s (by simp [List.take, hs])
      have ihapp := ih j' (i + 1) hj' htail
      have harith : i + 1 + j' = i + (j' + 1) := by omega
      rw [harith] at ihapp
      constructor
      · intro hs
        simp only [List.get] at hs
        rw [validateSteps, if_neg hhead.1, if_neg hhead.2]
        exact ihapp.1 hs
      · intro hs hm
        simp only [List.get] at hs hm
        rw [validateSteps, if_neg hhead.1, if_neg hhead.2]
        exact ihapp.2 hs hm

theorem resolveFields_keys (c : Context) :
    ∀ (fields out : List (String × Json)),
      resolveFields c fields = some out →
      out.map Prod.fst = fields.map Prod.fst := by
  intro fields
  induction fields with
  | nil =>
    intro out h
    rw [resolveFields] at h
    injection h with h
    subst h
    rfl
  | cons p rest ih =>
    intro out h
    rcases p with ⟨k, v⟩
    rw [resolveFields] at h
    cases hr : Context.resolve c v with
    | none =>
      cases hrest : resolveFields c rest with
      | none => rw [hr, hrest] at h; exact absurd h (by simp)
      | some outr => rw [hr, hrest] at h; exact absurd h (by simp)
    | some u =>
      cases hrest : resolveFields c rest with
      | none => rw [hr, hrest] at h; exact absurd h (by simp)
      | some outr =>
        rw [hr, hrest] at h
        injection h with h
        subst h
        simp [ih outr hrest]

/-! ## Claim theorems -/

/-- C1: whenever the collaborator's response for step `i` reports
`ok = false` (the run having reached step `i`: every earlier response is ok
and all step parameters carry well-formed templates), `execute` fails with an
error message containing the step index, the step's service, the step's
method, and the remote-reported error message (the empty string when the
response carries no error object), and the collaborator is called exactly
`i + 1` times — no step after `i` is invoked. -/
theorem execute_fails_on_error_response (oracle : Nat → Response) (w : Workflow)
    (i : Nat) (hi : i < w.steps.length)
    (hwf : ∀ s ∈ w.steps, wfParams s.params = true)
    (hok : ∀ j, j < i → (oracle j).ok = true)
    (hfail : (oracle i).ok = false) :
    (execute oracle w).1 = .error (stepErrorMsg i (w.steps.get ⟨i, hi⟩)
        (((oracle i).error.map ErrObj.message).getD "")) ∧
    (execute oracle w).2 = i + 1 ∧
    strContains (stepErrorMsg i (w.steps.get ⟨i, hi⟩)
        (((oracle i).error.map ErrObj.message).getD "")) (toString i) = true ∧
    strContains (stepErrorMsg i (w.steps.get ⟨i, hi⟩)
        (((oracle i).error.map ErrObj.message).getD ""))
      (w.steps.get ⟨i, hi⟩).service = true ∧
    strContains (stepErrorMsg i (w.steps.get ⟨i, hi⟩)
        (((oracle i).error.map ErrObj.message).getD ""))
      (w.steps.get ⟨i, hi⟩).method = true ∧
    strContains (stepErrorMsg i (w.steps.get ⟨i, hi⟩)
        (((oracle i).error.map ErrObj.message).getD ""))
      (((oracle i).error.map ErrObj.message).getD "") = true := by
  have hok0 : ∀ j, j < i → (oracle (0 + j)).ok = true := by
    intro j hj
    simpa using hok j hj
  have hfail0 : (oracle (0 + i)).ok = false := by simpa using hfail
  have hfe := executeFrom_fail oracle w.steps i 0 Context.new [] hi hwf hok0 hfail0
  simp only [Nat.zero_add] at hfe
  refine ⟨?_, ?_, ?_, ?_, ?_, ?_⟩
  · rw [execute, hfe]
  · rw [execute, hfe]
  · exact (stepErrorMsg_contains i _ _).1
  · exact (stepErrorMsg_contains i _ _).2.1
  · exact (stepErrorMsg_contains i _ _).2.2.1
  · exact (stepErrorMsg_contains i _ _).2.2.2

/-- Witness for C1 at a concrete input: a two-step workflow whose first call
fails with message "boom". -/
theorem execute_fails_on_error_response_witness :
    (execute failOracle wTwo).1 =
      .error (stepErrorMsg 0 (wTwo.steps.get ⟨0, by simp [wTwo]⟩)
        (((failOracle 0).error.map ErrObj.message).getD "")) ∧
    (execute failOracle wTwo).2 = 0 + 1 ∧
    strContains (stepErrorMsg 0 (wTwo.steps.get ⟨0, by simp [wTwo]⟩)
        (((failOracle 0).error.map ErrObj.message).getD "")) (toString 0) = true ∧
    strContains (stepErrorMsg 0 (wTwo.steps.get ⟨0, by simp [wTwo]⟩)
        (((failOracle 0).error.map ErrObj.message).getD ""))
      (wTwo.steps.get ⟨0, by simp [wTwo]⟩).service = true ∧
    strContains (stepErrorMsg 0 (wTwo.steps.get ⟨0, by simp [wTwo]⟩)
        (((failOracle 0).error.map ErrObj.message).getD ""))
      (wTwo.steps.get ⟨0, by simp [wTwo]⟩).method = true ∧
    strContains (stepErrorMsg 0 (wTwo.steps.get ⟨0, by simp [wTwo]⟩)
        (((failOracle 0).error.map ErrObj.message).getD ""))
      (((failOracle 0).error.map ErrObj.message).getD "") = true :=
  execute_fails_on_error_response failOracle wTwo 0 (by simp [wTwo])
    (by decide) (fun j hj => absurd hj (Nat.not_lt_zero j)) rfl

/-- C2 as stated is false on the code: `Context::as_json` exposes the
previous result and the results list only under the reserved-prefixed names
`$prev`/`$results`; the unprefixed aliases `prev`/`results` are absent from
the snapshot (they exist only in the template expansion scope). -/
theorem as_json_no_unprefixed_alias :
    jsonGet ctxPrev.as_json "$prev" = some (.num 1) ∧
    jsonGet ctxPrev.as_json "$results" = some (.arr [.num 1]) ∧
    jsonGet ctxPrev.as_json "prev" = none ∧
    jsonGet ctxPrev.as_json "results" = none :=
  ⟨rfl, rfl, rfl, rfl⟩

/-- C2 (amended): `Context::as_json` returns a record containing every named
variable under its name (reserved names aside), the previous result under
`$prev` (when one exists), and all results under `$results`; the unprefixed
aliases `prev`/`results` appear only in the template expansion scope built by
`render_template`, alongside the same `$`-prefixed entries. -/
theorem as_json_contents (c : Context) (n : String) (v : Json)
    (h1 : n ≠ "$prev") (h2 : n ≠ "$results") (hv : c.get n = some v) :
    jsonGet c.as_json n = some v ∧
    (∀ p, c.prev = some p → jsonGet c.as_json "$prev" = some p) ∧
    jsonGet c.as_json "$results" = some (.arr c.results) ∧
    (∀ p, c.prev = some p →
      alookup (buildScope c) "$prev" = some p ∧
      alookup (buildScope c) "prev" = some p) ∧
    alookup (buildScope c) "$results" = some (.arr c.results) ∧
    alookup (buildScope c) "results" = some (.arr c.results) := by
  refine ⟨?_, ?_, ?_, fun p hp => buildScope_lookup_prev c p hp,
    (buildScope_lookup_results c).1, (buildScope_lookup_results c).2⟩
  · cases hp : c.prev with
    | none =>
      simp only [Context.as_json, jsonGet, hp]
      rw [alookup_ainsert_other _ _ _ _ h2]
      exact hv
    | some p =>
      simp only [Context.as_json, jsonGet, hp]
      rw [alookup_ainsert_other _ _ _ _ h2, alookup_ainsert_other _ _ _ _ h1]
      exact hv
  · intro p hp
    simp only [Context.as_json, jsonGet, hp]
    rw [alookup_ainsert_other _ _ _ _ (by decide), alookup_ainsert_self]
  · cases hp : c.prev with
    | none =>
      simp only [Context.as_json, jsonGet, hp]
      rw [alookup_ainsert_self]
    | some p =>
      simp only [Context.as_json, jsonGet, hp]
      rw [alookup_ainsert_self]

/-- Witness for the amended C2 at a concrete context with one variable and
one history entry. -/
theorem as_json_contents_witness :
    jsonGet ctxPrevVar.as_json "q" = some (.num 3) ∧
    jsonGet ctxPrevVar.as_json "$prev" = some (.num 1) ∧
    jsonGet ctxPrevVar.as_json "$results" = some (.arr ctxPrevVar.results) ∧
    alookup (buildScope ctxPrevVar) "$prev" = some (.num 1) ∧
    alookup (buildScope ctxPrevVar) "prev" = some (.num 1) ∧
    alookup (buildScope ctxPrevVar) "$results" = some (.arr ctxPrevVar.results) ∧
    alookup (buildScope ctxPrevVar) "results" = some (.arr ctxPrevVar.results) :=
  have h := as_json_contents ctxPrevVar "q" (.num 3) (by decide) (by decide) rfl
  ⟨h.1, h.2.1 (.num 1) rfl, h.2.2.1, (h.2.2.2.1 (.num 1) rfl).1,
   (h.2.2.2.1 (.num 1) rfl).2, h.2.2.2.2.1, h.2.2.2.2.2⟩

/-- C3 as stated is false on the code: a successful step whose response has
no result payload stores the null sentinel, so `ExecutionResult.result` is
null here even though the step list is non-empty. -/
theorem execute_null_result_on_absent_payload :
    (execute noneOracle wOne).1 =
      .ok { result := .null,
            step_results := [{ index := 0, step := plainStep, result := .null }],
            context := { vars := [], results := [.null] } } ∧
    wOne.steps.length = 1 :=
  ⟨rfl, rfl⟩

/-- C3 (amended): on success, `ExecutionResult.result` equals the result of
the last executed step; it is the null sentinel whenever the step list is
empty, and may also be null for a non-empty step list when the last step's
result is itself null (an absent payload). -/
theorem execute_result_eq_last_step (oracle : Nat → Response) (w : Workflow)
    (er : ExecutionResult) (h : (execute oracle w).1 = .ok er) :
    er.result = (match er.step_results.getLast? with
                 | some sr => sr.result
                 | none => Json.null) ∧
    er.step_results.length = w.steps.length ∧
    (w.steps = [] → er.result = .null) := by
  rw [execute] at h
  cases hfe : executeFrom oracle w.steps 0 Context.new [] with
  | mk res n =>
    rw [hfe] at h
    cases res with
    | error e => simp at h
    | ok pair =>
      rcases pair with ⟨c', srs⟩
      have hh : (Except.ok (ExecutionResult.mk (c'.prev.getD .null) srs c') :
          Except String ExecutionResult) = .ok er := h
      injection hh with hh
      obtain ⟨new, hacc, hres, hlen⟩ :=
        executeFrom_ok oracle w.steps 0 Context.new [] c' srs n hfe
      subst hh
      simp only [List.nil_append] at hacc
      have hcres : c'.results = new.map StepResult.result := by
        simpa using hres
      refine ⟨?_, by rw [hacc]; exact hlen, ?_⟩
      · show c'.prev.getD .null =
          (match srs.getLast? with
           | some sr => sr.result
           | none => Json.null)
        rw [hacc, Context.prev, hcres, getLast?_map]
        cases hl : new.getLast? <;> simp
      · intro hsteps
        rw [hsteps] at hlen
        have hnew : new = [] := List.eq_nil_of_length_eq_zero (by simpa using hlen)
        show c'.prev.getD .null = Json.null
        rw [Context.prev, hcres, hnew]
        rfl

/-- Witness for the amended C3 at a concrete one-step run. -/
theorem execute_result_eq_last_step_witness :
    ({ result := .num 10,
       step_results := [{ index := 0, step := plainStep, result := .num 10 }],
       context := { vars := [], results := [.num 10] } } :
        ExecutionResult).result =
      (match ({ result := .num 10,
                step_results := [{ index := 0, step := plainStep, result := .num 10 }],
                context := { vars := [], results := [.num 10] } } :
          ExecutionResult).step_results.getLast? with
       | some sr => sr.result
       | none => Json.null) ∧
    ({ result := .num 10,
       step_results := [{ index := 0, step := plainStep, result := .num 10 }],
       context := { vars := [], results := [.num 10] } } :
        ExecutionResult).step_results.length = wOne.steps.length ∧
    (wOne.steps = [] →
      ({ result := .num 10,
         step_results := [{ index := 0, step := plainStep, result := .num 10 }],
         context := { vars := [], results := [.num 10] } } :
          ExecutionResult).result = .null) :=
  execute_result_eq_last_step okOracle wOne _ rfl

/-- C4: resolving a record whose `__template__` key holds a string replaces
the whole record by the rendered template value; no sibling key influences or
appears in the output (the result is exactly the rendering of the template,
whatever the siblings). -/
theorem resolve_template_marker_replaces (c : Context)
    (fields : List (String × Json)) (t : String)
    (h : alookup fields "__template__" = some (.str t)) :
    c.resolve (.obj fields) = render_template c t := by
  rw [Context.resolve, h]

/-- Witness for C4: a marker record with a sibling key resolves to just the
rendered template. -/
theorem resolve_template_marker_replaces_witness :
    Context.new.resolve (.obj [("__template__", .str "hi"), ("x", .num 1)]) =
      render_template Context.new "hi" :=
  resolve_template_marker_replaces Context.new
    [("__template__", .str "hi"), ("x", .num 1)] "hi" rfl

/-- C5: `resolve` expands templates recursively at every leaf of nested
records and lists, and rendered text that parses as JSON becomes the typed
value: with x = 5 and y = 7 the example value resolves as the claim states
(digit text becomes a number; unparseable text stays a string). -/
theorem resolve_recursive_example :
    ctx57.resolve
        (.obj [("a", .obj [("__template__", .str "\x7b\x7bx\x7d\x7d")]),
               ("b", .arr [.num 1, .str "\x7b\x7by\x7d\x7d"])]) =
      some (.obj [("a", .num 5), ("b", .arr [.num 1, .num 7])]) ∧
    ctx57.resolve (.str "\x7b\x7bx\x7d\x7d-suffix") = some (.str "5-suffix") ∧
    tryParseJson "42" = some (.num 42) ∧
    tryParseJson "5-suffix" = none :=
  ⟨rfl, rfl, rfl, rfl⟩

/-- C6: rendering never fails because of a missing path — for any
syntactically well-formed template, `render_template` and `resolve` succeed
whatever the scope contains, and an expression whose path is missing from
the scope renders as the empty string. -/
theorem render_missing_path_lenient (c : Context) (s : String) (segs : List Seg)
    (h : parseSegs s = some segs) :
    (render_template c s).isSome = true ∧
    (c.resolve (.str s)).isSome = true ∧
    (∀ path, lookupPath (buildScope c) path = none →
      renderSeg (buildScope c) (.expr path) = "") := by
  refine ⟨by rw [render_template, h]; rfl, ?_, ?_⟩
  · by_cases hm : (strContains s obrk && strContains s cbrk) = true
    · rw [Context.resolve, if_pos hm, render_template, h]
      rfl
    · rw [Context.resolve, if_neg hm]
      rfl
  · intro path hp
    rw [renderSeg, hp]

/-- Witness for C6: a template referencing a variable absent from the empty
context renders (to the empty string). -/
theorem render_missing_path_lenient_witness :
    (render_template Context.new "\x7b\x7bmissing\x7d\x7d").isSome = true ∧
    (Context.new.resolve (.str "\x7b\x7bmissing\x7d\x7d")).isSome = true ∧
    renderSeg (buildScope Context.new) (.expr ["missing"]) = "" :=
  have h := render_missing_path_lenient Context.new "\x7b\x7bmissing\x7d\x7d"
    [Seg.expr ["missing"]] rfl
  ⟨h.1, h.2.1, h.2.2 ["missing"] rfl⟩

/-- C7: a successful step with result `r` appends `r` to the history (so the
previous result is `r` afterwards) and, when the step's `output` is `n`,
also binds `r` under `n` — retrievable via `get`, visible in the template
expansion scope (for non-reserved names), and still bound after any later
step that does not rebind `n`; both updates are unconditional, the history
append performed first in `stepUpdate`. -/
theorem step_success_updates_store (c : Context) (step : Step) (r : Json) :
    (stepUpdate c step r).results = c.results ++ [r] ∧
    (stepUpdate c step r).prev = some r ∧
    ∀ n, step.output = some n →
      (stepUpdate c step r).get n = some r ∧
      (n ≠ "$prev" → n ≠ "prev" → n ≠ "$results" → n ≠ "results" →
        alookup (buildScope (stepUpdate c step r)) n = some r) ∧
      (∀ step' r', step'.output ≠ some n →
        (stepUpdate (stepUpdate c step r) step' r').get n = some r) := by
  refine ⟨stepUpdate_results c step r, stepUpdate_prev c step r, ?_⟩
  intro n hn
  have hget : (stepUpdate c step r).get n = some r := by
    rw [Context.get, stepUpdate_vars, hn, alookup_ainsert_self]
  refine ⟨hget, ?_, ?_⟩
  · intro h1 h2 h3 h4
    rw [buildScope_lookup_var _ n h1 h2 h3 h4]
    rw [Context.get] at hget
    exact hget
  · intro step' r' hout
    rw [Context.get, stepUpdate_vars]
    cases hout' : step'.output with
    | none =>
      rw [Context.get] at hget
      exact hget
    | some m =>
      have hmn : m ≠ n := by
        intro hh
        exact hout (by rw [hout', hh])
      rw [alookup_ainsert_other _ _ _ _ (Ne.symm hmn)]
      rw [Context.get] at hget
      exact hget

/-- Witness for C7 at a concrete step binding its result to `a`. -/
theorem step_success_updates_store_witness :
    (stepUpdate Context.new stepA (.num 10)).results =
      Context.new.results ++ [.num 10] ∧
    (stepUpdate Context.new stepA (.num 10)).prev = some (.num 10) ∧
    (stepUpdate Context.new stepA (.num 10)).get "a" = some (.num 10) ∧
    alookup (buildScope (stepUpdate Context.new stepA (.num 10))) "a" =
      some (.num 10) ∧
    (stepUpdate (stepUpdate Context.new stepA (.num 10)) stepB (.num 99)).get "a" =
      some (.num 10) :=
  have h := step_success_updates_store Context.new stepA (.num 10)
  ⟨h.1, h.2.1, (h.2.2 "a" rfl).1,
   (h.2.2 "a" rfl).2.1 (by decide) (by decide) (by decide) (by decide),
   (h.2.2 "a" rfl).2.2 stepB (.num 99) (by decide)⟩

/-- C8: `resolve` is the identity on values with no `__template__` marker and
no double-brace markup in any string leaf, hence idempotent there. -/
theorem resolve_idempotent_on_resolved (c : Context) (v : Json)
    (h : noMarkup v = true) :
    c.resolve v = some v ∧ (c.resolve v).bind c.resolve = c.resolve v := by
  have h1 := resolve_noMarkup c v h
  refine ⟨h1, ?_⟩
  rw [h1, Option.some_bind, h1]

/-- Witness for C8 on a concrete marker-free nested value. -/
theorem resolve_idempotent_on_resolved_witness :
    ctx57.resolve (.obj [("k", .arr [.num 1, .str "plain"])]) =
      some (.obj [("k", .arr [.num 1, .str "plain"])]) ∧
    (ctx57.resolve (.obj [("k", .arr [.num 1, .str "plain"])])).bind ctx57.resolve =
      ctx57.resolve (.obj [("k", .arr [.num 1, .str "plain"])]) :=
  resolve_idempotent_on_resolved ctx57 (.obj [("k", .arr [.num 1, .str "plain"])])
    (by decide)

/-- C9: `validate` (run by `parse_yaml` before any step executes) rejects an
empty workflow name, an empty step list — with a message mentioning "at
least one step" — and any step with an empty service or method with a
message naming the step index; a workflow passing validation has none of
these defects. -/
theorem validate_rejects_malformed (w : Workflow) :
    (w.name = "" → validate w = .error "Workflow name cannot be empty") ∧
    (w.name ≠ "" → w.steps = [] →
      validate w = .error "Workflow must have at least one step" ∧
      strContains "Workflow must have at least one step" "at least one step" = true) ∧
    (validate w = .ok () → w.name ≠ "" ∧ w.steps ≠ [] ∧
      ∀ s ∈ w.steps, s.service ≠ "" ∧ s.method ≠ "") ∧
    (∀ j (hj : j < w.steps.length), w.name ≠ "" →
      (∀ s ∈ w.steps.take j, s.service ≠ "" ∧ s.method ≠ "") →
      ((w.steps.get ⟨j, hj⟩).service = "" →
        validate w = .error ("Step " ++ toString j ++ " has empty service name") ∧
        strContains ("Step " ++ toString j ++ " has empty service name")
          (toString j) = true) ∧
      ((w.steps.get ⟨j, hj⟩).service ≠ "" → (w.steps.get ⟨j, hj⟩).method = "" →
        validate w = .error ("Step " ++ toString j ++ " has empty method name") ∧
        strContains ("Step " ++ toString j ++ " has empty method name")
          (toString j) = true)) := by
  refine ⟨?_, ?_, ?_, ?_⟩
  · intro hname
    rw [validate, if_pos hname]
  · intro hname hsteps
    constructor
    · rw [validate, if_neg hname, if_pos (by simp [hsteps])]
    · decide
  · intro hok
    rw [validate] at hok
    by_cases hname : w.name = ""
    · rw [if_pos hname] at hok
      exact absurd hok (by simp)
    · rw [if_neg hname] at hok
      by_cases hsteps : w.steps.isEmpty
      · rw [if_pos hsteps] at hok
        exact absurd hok (by simp)
      · rw [if_neg hsteps] at hok
        refine ⟨hname, by simpa [List.isEmpty_iff] using hsteps, ?_⟩
        exact (validateSteps_ok_iff w.steps 0).mp hok
  · intro j hj hname hgood
    have hne : ¬ w.steps.isEmpty := by
      cases hst : w.steps with
      | nil => rw [hst] at hj; exact absurd hj (by simp)
      | cons a l => simp [hst]
    have hfb := validateSteps_first_bad w.steps j 0 hj hgood
    simp only [Nat.zero_add] at hfb
    constructor
    · intro hs
      refine ⟨?_, ?_⟩
      · rw [validate, if_neg hname, if_neg hne]
        exact hfb.1 hs
      · exact strContains_middle "Step " (toString j) " has empty service name"
    · intro hs hm
      refine ⟨?_, ?_⟩
      · rw [validate, if_neg hname, if_neg hne]
        exact hfb.2 hs hm
      · exact strContains_middle "Step " (toString j) " has empty method name"

/-- Witness for C9: the `steps: []` workflow is rejected with the "at least
one step" message. -/
theorem validate_rejects_malformed_witness :
    validate { name := "empty-workflow", description := none, steps := [] } =
      .error "Workflow must have at least one step" ∧
    strContains "Workflow must have at least one step" "at least one step" = true :=
  (validate_rejects_malformed
    { name := "empty-workflow", description := none, steps := [] }).2.1
    (by decide) rfl

/-- C10: a record whose `__template__` key holds a non-string value is not
rendered as a template: it is traversed like an ordinary record, every field
(the `__template__` entry included) resolved recursively and kept under its
key. -/
theorem resolve_nonstring_marker_traverses (c : Context)
    (fields : List (String × Json)) (v : Json)
    (hv : alookup fields "__template__" = some v) (hns : ∀ s, v ≠ .str s) :
    c.resolve (.obj fields) = (resolveFields c fields).map Json.obj ∧
    (∀ out, resolveFields c fields = some out →
      out.map Prod.fst = fields.map Prod.fst) := by
  refine ⟨?_, fun out h => resolveFields_keys c fields out h⟩
  rw [Context.resolve, hv]
  cases v with
  | str s => exact absurd rfl (hns s)
  | null =>
    show (match resolveFields c fields with
          | some out => some (Json.obj out)
          | none => none) = (resolveFields c fields).map Json.obj
    cases resolveFields c fields <;> rfl
  | bool b =>
    show (match resolveFields c fields with
          | some out => some (Json.obj out)
          | none => none) = (resolveFields c fields).map Json.obj
    cases resolveFields c fields <;> rfl
  | num n =>
    show (match resolveFields c fields with
          | some out => some (Json.obj out)
          | none => none) = (resolveFields c fields).map Json.obj
    cases resolveFields c fields <;> rfl
  | arr xs =>
    show (match resolveFields c fields with
          | some out => some (Json.obj out)
          | none => none) = (resolveFields c fields).map Json.obj
    cases resolveFields c fields <;> rfl
  | obj gs =>
    show (match resolveFields c fields with
          | some out => some (Json.obj out)
          | none => none) = (resolveFields c fields).map Json.obj
    cases resolveFields c fields <;> rfl

/-- Witness for C10: a record with `__template__` bound to a number resolves
by ordinary traversal, keeping its keys. -/
theorem resolve_nonstring_marker_traverses_witness :
    Context.new.resolve (.obj [("__template__", .num 2), ("x", .str "ok")]) =
      (resolveFields Context.new [("__template__", .num 2), ("x", .str "ok")]).map
        Json.obj ∧
    ([("__template__", Json.num 2), ("x", Json.str "ok")]).map Prod.fst =
      ([("__template__", Json.num 2), ("x", Json.str "ok")]).map Prod.fst :=
  have h := resolve_nonstring_marker_traverses Context.new
    [("__template__", .num 2), ("x", .str "ok")] (.num 2) rfl
    (fun _ hu => Json.noConfusion hu)
  ⟨h.1, h.2 [("__template__", Json.num 2), ("x", Json.str "ok")] rfl⟩

end Fgp